import Mathlib

/-!
Verification development for the roadkill-map repository.

Strings are modelled as `List Char`.  The Python string primitives used by
the code (`str.translate` with a char map, `str.replace`, `str.strip`,
`str.endswith`, `str.split`, substring test `in`) are embedded below, and
the repository's functions (`normalize_name`, the `get_map_data`
resolution loop of `app.py`, the merge of `roadkill-map.py`, the density
lambdas) are translated on top of them.
-/

namespace Roadkill

/-- The set of characters stripped by Python's default `str.strip`
(Unicode whitespace, as recognised by `str.isspace`). -/
def isPySpace (c : Char) : Bool :=
  (0x9 ≤ c.toNat && c.toNat ≤ 0xD) || c.toNat = 0x20 ||
  (0x1C ≤ c.toNat && c.toNat ≤ 0x1F) || c.toNat = 0x85 || c.toNat = 0xA0 ||
  c.toNat = 0x1680 || (0x2000 ≤ c.toNat && c.toNat ≤ 0x200A) ||
  c.toNat = 0x2028 || c.toNat = 0x2029 || c.toNat = 0x202F ||
  c.toNat = 0x205F || c.toNat = 0x3000

/-- Remove trailing characters satisfying `p`. -/
def dropTrailing (p : Char → Bool) (s : List Char) : List Char :=
  (s.reverse.dropWhile p).reverse

/-- Python `str.strip()`: remove leading and trailing whitespace. -/
def pyStrip (s : List Char) : List Char :=
  dropTrailing isPySpace (s.dropWhile isPySpace)

/-- Fuelled worker for Python `str.replace`: replace non-overlapping
occurrences of `old` by `new`, scanning left to right.  `fuel` bounds the
recursion; it is immaterial as long as it is at least the length of the
scanned list (the wrapper `pyReplace` passes the length). -/
def pyReplaceFuel (old new : List Char) : Nat → List Char → List Char
  | _, [] => []
  | 0, s => s
  | fuel + 1, c :: rest =>
    if old ≠ [] ∧ old.isPrefixOf (c :: rest) then
      new ++ pyReplaceFuel old new fuel ((c :: rest).drop old.length)
    else
      c :: pyReplaceFuel old new fuel rest

/-- Python `s.replace(old, new)` for a non-empty `old`. -/
def pyReplace (old new s : List Char) : List Char :=
  pyReplaceFuel old new s.length s

/-- Python `s.endswith(suf)`. -/
def pyEndsWith (suf s : List Char) : Bool :=
  suf.isSuffixOf s

/-- Python substring test `needle in hay`. -/
def containsSub (hay needle : List Char) : Bool :=
  needle.isPrefixOf hay ||
    match hay with
    | [] => false
    | _ :: t => containsSub t needle

/-- Python `s.split(sep)` for a one-character separator. -/
def splitOnChar (sep : Char) : List Char → List (List Char)
  | [] => [[]]
  | c :: rest =>
    match splitOnChar sep rest with
    | [] => [[]]
    | h :: t => if c = sep then [] :: h :: t else (c :: h) :: t

/-- The character map built by `str.maketrans({chr(0xFF01+i): chr(0x21+i)
for i in range(94)})`: fold the full-width ASCII block U+FF01–U+FF5E onto
U+21–U+7E. -/
def foldChar (c : Char) : Char :=
  if 0xFF01 ≤ c.toNat ∧ c.toNat ≤ 0xFF5E then Char.ofNat (c.toNat - 0xFEE0)
  else c

/-- The first two lines of `normalize_name` applied to a string: the
`translate` full-width fold followed by `replace('　', ' ')` (ideographic
space U+3000 to ASCII space). -/
def preNorm (s : List Char) : List Char :=
  pyReplace ['　'] [' '] (s.map foldChar)

/-- A Python value as far as `normalize_name` can observe it: a string, or
any non-string value (`None`, numbers, booleans, ...). -/
inductive PyVal where
  | pyStr (s : List Char)
  | pyNone
  | pyInt (n : Int)
  | pyFloat (q : ℚ)
  | pyBool (b : Bool)
deriving DecidableEq

/-- The suffix list of `normalize_name`'s PLACE branch, in source order
(full-width and half-width spellings of IC / JCT / SIC / SA / PA / TB). -/
def SUFFIXES : List (List Char) :=
  [['Ｉ', 'Ｃ'], ['I', 'C'], ['Ｊ', 'Ｃ', 'Ｔ'], ['J', 'C', 'T'],
   ['Ｓ', 'Ｉ', 'Ｃ'], ['S', 'I', 'C'], ['Ｓ', 'Ａ'], ['S', 'A'],
   ['Ｐ', 'Ａ'], ['P', 'A'], ['Ｔ', 'Ｂ'], ['T', 'B']]

/-- `normalize_name` of `app.py` / `roadkill_app_simple.py` (the two
copies are textually identical).  Non-strings return `""`; strings are
width-folded, then either the trailing generic road-type character is
handled (ROUTE mode: `if name.endswith('道'): name = name.replace('道', '')`)
or every suffix occurrence is removed (PLACE mode), and the result is
stripped. -/
def normalize_name (name : PyVal) (is_route : Bool) : List Char :=
  match name with
  | .pyStr s =>
    let s1 := preNorm s
    if is_route then
      pyStrip (if pyEndsWith ['道'] s1 then pyReplace ['道'] [] s1 else s1)
    else
      pyStrip (SUFFIXES.foldl (fun acc suf => pyReplace suf [] acc) s1)
  | _ => []

/-- `normalize_name` of `roadkill-map.py`: width fold, ideographic-space
replacement and strip only (no mode, no suffix stripping). -/
def normalize_name_plain (name : PyVal) : List Char :=
  match name with
  | .pyStr s => pyStrip (preNorm s)
  | _ => []

/-- An association-list model of a Python dict built by grouping: lookup
returns the value of the first entry with the given key (keys are unique
in all dicts the code builds, so this is exact). -/
def lookupAssoc {α : Type} (m : List (List Char × α)) (k : List Char) : Option α :=
  (m.find? (fun e => decide (e.1 = k))).map (·.2)

/-- Order-preserving deduplication, as `pandas.Series.unique` (order of
first appearance). -/
def uniqueList (l : List (List Char)) : List (List Char) :=
  l.foldl (fun acc x => if x ∈ acc then acc else acc ++ [x]) []

namespace App

/-- A point geometry (longitude `x`, latitude `y`).  `R` stands for the
numeric type of the Python floats; the code only multiplies, compares and
divides them, so the development keeps `R` abstract, with ring axioms
where division is not used and field axioms where it is. -/
structure Point (R : Type) where
  x : R
  y : R
deriving DecidableEq

variable {R : Type} [LinearOrderedRing R]

/-- `DISTANCE_THRESHOLD_M = 3000` of `app.py`. -/
def DISTANCE_THRESHOLD_M : R := 3000

/-- One row of the roadkill CSV as far as the aggregation of `app.py`
uses it: the raw route name (`道路名`), the raw section label (`区間`,
format `"A〜B"`), and the section length (`区間長_km`).  The remaining
columns (direction, month, hour, weekday, weather, species) are only used
for filtering upstream of the aggregation and never enter the grouping
key or the resolution, so they are omitted. -/
structure Incident (R : Type) where
  route : List Char
  sectionLabel : List Char
  length : R
deriving DecidableEq

/-- One row of `section_counts`: the grouped keys, the group size
(`件数`), the first length of the group, and the PLACE-normalized start
and end labels split off the section label. -/
structure SectionRow (R : Type) where
  route : List Char
  sectionLabel : List Char
  count : Nat
  length : R
  startNorm : List Char
  endNorm : List Char
deriving DecidableEq

/-- The raw grouping keys of `section_counts`, i.e. the distinct
`(道路名, 区間)` pairs.  (pandas sorts group keys; we keep them in order
of first appearance instead — no property below depends on the order of
the rows.) -/
def rawKeys (records : List (Incident R)) : List (List Char × List Char) :=
  records.foldl
    (fun acc r =>
      if (r.route, r.sectionLabel) ∈ acc then acc
      else acc ++ [(r.route, r.sectionLabel)]) []

/-- Normalization of one part of the split section label:
`normalize_name` with the PLACE default; a missing part (a section label
without the separator) is `None` and normalizes to `""`. -/
def normSplitPart (part : Option (List Char)) : List Char :=
  match part with
  | some s => normalize_name (.pyStr s) false
  | none => normalize_name .pyNone false

/-- `section_counts` of `app.py`: group the (already filtered) records by
the raw `(道路名, 区間)` pair, count rows per group (`件数`), take the
first length, split the section label on `'〜'` and PLACE-normalize the
first two parts into `始点_norm` / `終点_norm`. -/
def sectionCounts (records : List (Incident R)) : List (SectionRow R) :=
  (rawKeys records).map fun k =>
    let group := records.filter
      (fun r => decide (r.route = k.1 ∧ r.sectionLabel = k.2))
    let parts := splitOnChar '〜' k.2
    { route := k.1
      sectionLabel := k.2
      count := group.length
      length := (group.head?.map (·.length)).getD 0
      startNorm := normSplitPart parts.head?
      endNorm := normSplitPart (parts.get? 1) }

/-- The `route_name_map` construction of `get_map_data`: for each raw CSV
route name, the first shapefile route key that contains its ROUTE-mode
normalization as a substring. -/
def buildRouteNameMap (csvRoutes shpRoutes : List (List Char)) :
    List (List Char × List Char) :=
  csvRoutes.foldl
    (fun acc csv =>
      match shpRoutes.find?
          (fun shp => containsSub shp (normalize_name (.pyStr csv) true)) with
      | some shp => acc ++ [(csv, shp)]
      | none => acc) []

/-- The geometric plausibility filter of `get_map_data`:
`[p for p in candidates if p.distance(geom) * 111000 < DISTANCE_THRESHOLD_M]`.
The geometry type `G` and the (shapely) point-to-geometry degree distance
`distG` are abstract parameters: the repository only composes them. -/
def validCands {G : Type} (distG : Point R → G → R) (geom : G)
    (cands : List (Point R)) : List (Point R) :=
  cands.filter (fun p => decide (distG p geom * 111000 < DISTANCE_THRESHOLD_M))

/-- `itertools.product(valid_starts, valid_ends)`: the cross product in
iteration order (start outer, end inner). -/
def crossPairs (starts ends : List (Point R)) : List (Point R × Point R) :=
  starts.foldr (fun s acc => ends.map (fun e => (s, e)) ++ acc) []

/-- One iteration of the `best_pair` loop: keep the pair
iff `dist > 0 and dist < min_dist` (the initial `min_dist = inf` is the
`none` state). -/
def bestPairStep (hav : Point R → Point R → R)
    (acc : Option R × Option (Point R × Point R)) (pr : Point R × Point R) :
    Option R × Option (Point R × Point R) :=
  let d := hav pr.1 pr.2
  match acc.1 with
  | none => if 0 < d then (some d, some pr) else acc
  | some m => if 0 < d ∧ d < m then (some d, some pr) else acc

/-- The `best_pair` loop of `get_map_data`, over the cross product of
surviving candidates.  `hav` is the (abstract) great-circle distance of
the `haversine` library. -/
def bestPair (hav : Point R → Point R → R) (pairs : List (Point R × Point R)) :
    Option (Point R × Point R) :=
  (pairs.foldl (bestPairStep hav) (none, none)).2

/-- The per-row body of the `get_map_data` loop, from the
`route_name_map` lookup result and the two normalized labels down to the
chosen endpoint pair.  Mirrors the `continue` guards of the source:
a missing or falsy (empty-string) official route name, a missing or
empty (falsy) geometry, an empty candidate list, an emptied filtered
list, or no positive-distance pair each yield `none`. -/
def resolveEndpoints {G : Type} (distG : Point R → G → R)
    (hav : Point R → Point R → R) (isEmptyG : G → Bool)
    (icLocations : List (List Char × List (Point R)))
    (routeGeometries : List (List Char × G))
    (officialName : Option (List Char)) (sNorm eNorm : List Char) :
    Option (Point R × Point R) :=
  match officialName with
  | none => none
  | some official =>
    if official = [] then none
    else
      match lookupAssoc routeGeometries official with
      | none => none
      | some geom =>
        if isEmptyG geom then none
        else
          let startCands := (lookupAssoc icLocations sNorm).getD []
          let endCands := (lookupAssoc icLocations eNorm).getD []
          if startCands = [] ∨ endCands = [] then none
          else
            let validStarts := validCands distG geom startCands
            let validEnds := validCands distG geom endCands
            if validStarts = [] ∨ validEnds = [] then none
            else bestPair hav (crossPairs validStarts validEnds)

/-- The cross product of surviving candidates a row's resolution feeds
into the `best_pair` loop (`[]` when an earlier guard already failed). -/
def survivingPairs {G : Type} (distG : Point R → G → R) (isEmptyG : G → Bool)
    (icLocations : List (List Char × List (Point R)))
    (routeGeometries : List (List Char × G))
    (officialName : Option (List Char)) (sNorm eNorm : List Char) :
    List (Point R × Point R) :=
  match officialName with
  | none => []
  | some official =>
    if official = [] then []
    else
      match lookupAssoc routeGeometries official with
      | none => []
      | some geom =>
        if isEmptyG geom then []
        else
          let startCands := (lookupAssoc icLocations sNorm).getD []
          let endCands := (lookupAssoc icLocations eNorm).getD []
          if startCands = [] ∨ endCands = [] then []
          else
            let validStarts := validCands distG geom startCands
            let validEnds := validCands distG geom endCands
            if validStarts = [] ∨ validEnds = [] then []
            else crossPairs validStarts validEnds

/-- One output row of `get_map_data`. -/
structure MapRow (R : Type) where
  route : List Char
  sectionLabel : List Char
  count : Nat
  length : R
  startLon : R
  startLat : R
  endLon : R
  endLat : R
deriving DecidableEq

/-- One iteration of the `get_map_data` row loop. -/
def resolveRow {G : Type} (distG : Point R → G → R) (hav : Point R → Point R → R)
    (isEmptyG : G → Bool) (icLocations : List (List Char × List (Point R)))
    (routeGeometries : List (List Char × G))
    (routeNameMap : List (List Char × List Char)) (row : SectionRow R) :
    Option (MapRow R) :=
  match resolveEndpoints distG hav isEmptyG icLocations routeGeometries
      (lookupAssoc routeNameMap row.route) row.startNorm row.endNorm with
  | none => none
  | some pr =>
    some { route := row.route, sectionLabel := row.sectionLabel
           count := row.count, length := row.length
           startLon := pr.1.x, startLat := pr.1.y
           endLon := pr.2.x, endLat := pr.2.y }

/-- `get_map_data` of `app.py`: build `route_name_map` from the distinct
raw CSV route names and the shapefile route keys, then resolve each row
of `section_counts`, dropping the unresolvable ones. -/
def get_map_data {G : Type} (distG : Point R → G → R) (hav : Point R → Point R → R)
    (isEmptyG : G → Bool) (icLocations : List (List Char × List (Point R)))
    (routeGeometries : List (List Char × G)) (rows : List (SectionRow R)) :
    List (MapRow R) :=
  let csvRoutes := uniqueList (rows.map (·.route))
  let shpRoutes := routeGeometries.map (·.1)
  let routeNameMap := buildRouteNameMap csvRoutes shpRoutes
  rows.filterMap
    (resolveRow distG hav isEmptyG icLocations routeGeometries routeNameMap)

/-- The aggregation-plus-resolution pipeline of `app.py`'s main body:
`section_counts` followed by `get_map_data`. -/
def appPipeline {G : Type} (distG : Point R → G → R) (hav : Point R → Point R → R)
    (isEmptyG : G → Bool) (icLocations : List (List Char × List (Point R)))
    (routeGeometries : List (List Char × G)) (records : List (Incident R)) :
    List (MapRow R) :=
  get_map_data distG hav isEmptyG icLocations routeGeometries
    (sectionCounts records)

/-- The `件数_per_km` lambda of `app.py`:
`row['件数'] / row['区間長_km'] if row['区間長_km'] > 0 else 0`. -/
def perKmApp {K : Type} [LinearOrderedField K] (count length : K) : K :=
  if 0 < length then count / length else 0

end App

namespace RM

/-- One row of the pre-cut reference shapefile
(`final_highway_sections_with_ic.shp`) as `roadkill-map.py` uses it: the
raw start/end interchange names and whether the row carries a geometry
(the merge output is filtered by `dropna(subset=['geometry'])`). -/
structure RefSegment where
  startIC : List Char
  endIC : List Char
  geomPresent : Bool
deriving DecidableEq

/-- `start_norm` column: `normalize_name` (the plain variant of
`roadkill-map.py`) of the raw start name. -/
def startNorm (seg : RefSegment) : List Char :=
  normalize_name_plain (.pyStr seg.startIC)

/-- `end_norm` column. -/
def endNorm (seg : RefSegment) : List Char :=
  normalize_name_plain (.pyStr seg.endIC)

/-- `section_norm_key_1 = start_norm + '〜' + end_norm`. -/
def key1 (seg : RefSegment) : List Char :=
  startNorm seg ++ '〜' :: endNorm seg

/-- `section_norm_key_2 = end_norm + '〜' + start_norm`. -/
def key2 (seg : RefSegment) : List Char :=
  endNorm seg ++ '〜' :: startNorm seg

/-- One row of `section_counts` in `roadkill-map.py`: the grouped
normalized section key, the group size (`件数`), the first length and the
first display route name of the group. -/
structure CountsRow (R : Type) where
  sectionNorm : List Char
  count : Nat
  length : R
  routeName : List Char
deriving DecidableEq

/-- The merged attributes of one reference segment after the two left
merges and the `fillna` chains: the count comes from the key-1 match if
any, else from the key-2 match, else 0; length and route name likewise
but with no 0 default (they stay missing, `NaN`, modelled as `none`). -/
structure MergedSeg (R : Type) where
  seg : RefSegment
  count : R
  length : Option R
  routeName : Option (List Char)
deriving DecidableEq

variable {R : Type} [LinearOrderedRing R]

/-- The row-wise content of
`pd.merge(..., left_on=key, right_on='section_norm', how='left')`: the
first `section_counts` row whose key equals the given merge key
(`section_norm` is a groupby key, hence unique, so the merge matches at
most one row and never duplicates a left row). -/
def mergeMatch (counts : List (CountsRow R)) (key : List Char) :
    Option (CountsRow R) :=
  counts.find? (fun c => decide (c.sectionNorm = key))

/-- One row of `map_gdf`: left-merge on `section_norm_key_1`, fill from
the `section_norm_key_2` merge, fill the count with 0. -/
def mergedRow (counts : List (CountsRow R)) (seg : RefSegment) : MergedSeg R :=
  let m1 := mergeMatch counts (key1 seg)
  let m2 := mergeMatch counts (key2 seg)
  { seg := seg
    count :=
      match m1 with
      | some c => (c.count : R)
      | none =>
        match m2 with
        | some c => (c.count : R)
        | none => 0
    length :=
      match m1 with
      | some c => some c.length
      | none => m2.map (·.length)
    routeName :=
      match m1 with
      | some c => some c.routeName
      | none => m2.map (·.routeName) }

/-- `map_gdf` of `roadkill-map.py`: every reference segment, merged, with
rows lacking a geometry dropped (`dropna(subset=['geometry'])`). -/
def map_gdf (counts : List (CountsRow R)) (segs : List RefSegment) :
    List (MergedSeg R) :=
  (segs.map (mergedRow counts)).filter (fun m => m.seg.geomPresent)

/-- The `件数_per_km` lambda of `roadkill-map.py`:
`row['件数'] / row['区間長_km'] if pd.notna(row['区間長_km']) and row['区間長_km'] > 0 else 0`. -/
def perKmRM {K : Type} [LinearOrderedField K] (count : K) (length : Option K) : K :=
  match length with
  | some l => if 0 < l then count / l else 0
  | none => 0

end RM


/-! ### Properties of the embedded string primitives -/

theorem mem_pyReplaceFuel {old new : List Char} :
    ∀ (fuel : Nat) (s : List Char), s.length ≤ fuel →
      ∀ c ∈ pyReplaceFuel old new fuel s, c ∈ new ∨ c ∈ s := by
  intro fuel
  induction fuel with
  | zero =>
    intro s hs c hc
    have hnil : s = [] := List.length_eq_zero.mp (Nat.le_zero.mp hs)
    subst hnil
    simp [pyReplaceFuel] at hc
  | succ n ih =>
    intro s hs c hc
    match s with
    | [] => simp [pyReplaceFuel] at hc
    | a :: rest =>
      rw [pyReplaceFuel] at hc
      split at hc
      case isTrue h =>
        rcases List.mem_append.mp hc with h1 | h2
        · exact Or.inl h1
        · have hpos : 1 ≤ old.length := List.length_pos.mpr h.1
          have hlen : ((a :: rest).drop old.length).length ≤ n := by
            simp only [List.length_drop, List.length_cons]
            simp only [List.length_cons] at hs
            omega
          rcases ih _ hlen c h2 with h3 | h4
          · exact Or.inl h3
          · exact Or.inr (List.mem_of_mem_drop h4)
      case isFalse h =>
        rcases List.mem_cons.mp hc with h1 | h2
        · exact Or.inr (h1 ▸ List.mem_cons_self a rest)
        · have hlen : rest.length ≤ n := by
            simp only [List.length_cons] at hs; omega
          rcases ih _ hlen c h2 with h3 | h4
          · exact Or.inl h3
          · exact Or.inr (List.mem_cons_of_mem a h4)

theorem mem_pyReplace {old new s : List Char} {c : Char}
    (hc : c ∈ pyReplace old new s) : c ∈ new ∨ c ∈ s :=
  mem_pyReplaceFuel s.length s (Nat.le_refl _) c hc

theorem pyReplaceFuel_single (a b : Char) :
    ∀ (fuel : Nat) (s : List Char), s.length ≤ fuel →
      pyReplaceFuel [a] [b] fuel s
        = s.map (fun c => if c = a then b else c) := by
  intro fuel
  induction fuel with
  | zero =>
    intro s hs
    have hnil : s = [] := List.length_eq_zero.mp (Nat.le_zero.mp hs)
    subst hnil; rfl
  | succ n ih =>
    intro s hs
    match s with
    | [] => rfl
    | c :: rest =>
      have hlen : rest.length ≤ n := by
        simp only [List.length_cons] at hs; omega
      rw [pyReplaceFuel]
      by_cases hca : c = a
      · subst hca
        rw [if_pos (by simp [List.isPrefixOf])]
        simp [ih rest hlen]
      · have hcond : ¬(([a] : List Char) ≠ [] ∧ [a].isPrefixOf (c :: rest)) := by
          intro h
          have h2 : a = c := by simpa [List.isPrefixOf] using h.2
          exact hca h2.symm
        rw [if_neg hcond]
        simp [ih rest hlen, hca]

theorem pyReplace_single (a b : Char) (s : List Char) :
    pyReplace [a] [b] s = s.map (fun c => if c = a then b else c) :=
  pyReplaceFuel_single a b s.length s (Nat.le_refl _)

theorem pyReplaceFuel_single_del (a : Char) :
    ∀ (fuel : Nat) (s : List Char), s.length ≤ fuel →
      pyReplaceFuel [a] [] fuel s = s.filter (fun c => !(c = a : Bool)) := by
  intro fuel
  induction fuel with
  | zero =>
    intro s hs
    have hnil : s = [] := List.length_eq_zero.mp (Nat.le_zero.mp hs)
    subst hnil; rfl
  | succ n ih =>
    intro s hs
    match s with
    | [] => rfl
    | c :: rest =>
      have hlen : rest.length ≤ n := by
        simp only [List.length_cons] at hs; omega
      rw [pyReplaceFuel]
      by_cases hca : c = a
      · subst hca
        rw [if_pos (by simp [List.isPrefixOf])]
        simp [ih rest hlen]
      · have hcond : ¬(([a] : List Char) ≠ [] ∧ [a].isPrefixOf (c :: rest)) := by
          intro h
          have h2 : a = c := by simpa [List.isPrefixOf] using h.2
          exact hca h2.symm
        rw [if_neg hcond]
        simp [ih rest hlen, hca]

theorem pyReplace_single_del (a : Char) (s : List Char) :
    pyReplace [a] [] s = s.filter (fun c => !(c = a : Bool)) :=
  pyReplaceFuel_single_del a s.length s (Nat.le_refl _)

theorem pyReplaceFuel_of_not_contains {old new : List Char} :
    ∀ (fuel : Nat) (s : List Char), s.length ≤ fuel →
      containsSub s old = false → pyReplaceFuel old new fuel s = s := by
  intro fuel
  induction fuel with
  | zero =>
    intro s hs _
    have hnil : s = [] := List.length_eq_zero.mp (Nat.le_zero.mp hs)
    subst hnil; rfl
  | succ n ih =>
    intro s hs hsub
    match s with
    | [] => rfl
    | c :: rest =>
      have hlen : rest.length ≤ n := by
        simp only [List.length_cons] at hs; omega
      rw [containsSub, Bool.or_eq_false_iff] at hsub
      rw [pyReplaceFuel, if_neg (fun h => by rw [h.2] at hsub; simp at hsub),
        ih rest hlen hsub.2]

theorem pyReplace_of_not_contains {old new s : List Char}
    (hsub : containsSub s old = false) : pyReplace old new s = s :=
  pyReplaceFuel_of_not_contains s.length s (Nat.le_refl _) hsub

theorem head_dropWhile_false (p : Char → Bool) :
    ∀ (l : List Char) (c : Char), (l.dropWhile p).head? = some c → p c = false := by
  intro l
  induction l with
  | nil => intro c hc; simp [List.dropWhile] at hc
  | cons a rest ih =>
    intro c hc
    rw [List.dropWhile] at hc
    by_cases ha : p a = true
    · rw [ha] at hc
      exact ih c hc
    · rw [Bool.not_eq_true] at ha
      rw [ha] at hc
      simp only [List.head?_cons, Option.some.injEq] at hc
      subst hc
      exact ha

theorem mem_pyStrip {s : List Char} {c : Char} (hc : c ∈ pyStrip s) : c ∈ s := by
  have h1 : c ∈ (s.dropWhile isPySpace).reverse.dropWhile isPySpace := by
    simpa [pyStrip, dropTrailing] using hc
  have h2 : c ∈ (s.dropWhile isPySpace).reverse :=
    (List.dropWhile_sublist _).mem h1
  have h3 : c ∈ s.dropWhile isPySpace := by simpa using h2
  exact (List.dropWhile_sublist _).mem h3

theorem pyStrip_head (s : List Char) (c : Char)
    (hc : (pyStrip s).head? = some c) : isPySpace c = false := by
  have hpre : pyStrip s <+: s.dropWhile isPySpace := by
    have hsuf :
        (s.dropWhile isPySpace).reverse.dropWhile isPySpace
          <:+ (s.dropWhile isPySpace).reverse :=
      List.dropWhile_suffix _
    have := List.reverse_prefix.mpr hsuf
    simpa [pyStrip, dropTrailing] using this
  obtain ⟨t, ht⟩ := hpre
  match hs : pyStrip s with
  | [] => rw [hs] at hc; simp at hc
  | a :: rest =>
    rw [hs] at hc ht
    simp only [List.head?_cons, Option.some.injEq] at hc
    have hhead : (s.dropWhile isPySpace).head? = some a := by
      rw [← ht]; rfl
    rw [← hc]
    exact head_dropWhile_false isPySpace s a hhead

theorem pyStrip_getLast (s : List Char) (c : Char)
    (hc : (pyStrip s).getLast? = some c) : isPySpace c = false := by
  have : ((s.dropWhile isPySpace).reverse.dropWhile isPySpace).head? = some c := by
    rw [← List.getLast?_reverse]
    simpa [pyStrip, dropTrailing] using hc
  exact head_dropWhile_false isPySpace _ c this

theorem dropWhile_eq_self_of_head (p : Char → Bool) (l : List Char)
    (h : ∀ c, l.head? = some c → p c = false) : l.dropWhile p = l := by
  match l with
  | [] => rfl
  | a :: rest =>
    have := h a rfl
    simp [List.dropWhile, this]

theorem pyStrip_of_stripped (s : List Char)
    (hh : ∀ c, s.head? = some c → isPySpace c = false)
    (hl : ∀ c, s.getLast? = some c → isPySpace c = false) :
    pyStrip s = s := by
  have h1 : s.dropWhile isPySpace = s := dropWhile_eq_self_of_head _ _ hh
  have h2 : s.reverse.dropWhile isPySpace = s.reverse := by
    refine dropWhile_eq_self_of_head _ _ ?_
    intro c hc
    exact hl c (by rwa [List.head?_reverse] at hc)
  rw [pyStrip, h1, dropTrailing, h2, List.reverse_reverse]

theorem pyStrip_idem (s : List Char) : pyStrip (pyStrip s) = pyStrip s :=
  pyStrip_of_stripped _ (pyStrip_head s) (pyStrip_getLast s)

/-- A character that can appear in `normalize_name` output: not in the
full-width ASCII block U+FF01–U+FF5E and not the ideographic space
U+3000. -/
def GoodChar (c : Char) : Prop :=
  ¬(0xFF01 ≤ c.toNat ∧ c.toNat ≤ 0xFF5E) ∧ c ≠ '　'

theorem toNat_ofNat_valid (n : Nat) (h : n.isValidChar) :
    (Char.ofNat n).toNat = n := by
  rw [Char.ofNat, dif_pos h]
  rfl

theorem foldChar_not_fullwidth (c : Char) :
    ¬(0xFF01 ≤ (foldChar c).toNat ∧ (foldChar c).toNat ≤ 0xFF5E) := by
  rw [foldChar]
  split
  case isTrue h =>
    have hv : (c.toNat - 0xFEE0).isValidChar := by
      left
      omega
    rw [toNat_ofNat_valid _ hv]
    omega
  case isFalse h => exact h

/-- The per-character effect of the `translate` fold followed by the
ideographic-space replacement. -/
def widthFold (c : Char) : Char :=
  if foldChar c = '　' then ' ' else foldChar c

theorem goodChar_widthFold (c : Char) : GoodChar (widthFold c) := by
  rw [widthFold]
  split
  case isTrue _ => exact ⟨by decide, by decide⟩
  case isFalse h => exact ⟨foldChar_not_fullwidth c, h⟩

theorem preNorm_eq_map (s : List Char) : preNorm s = s.map widthFold := by
  rw [preNorm, pyReplace_single, List.map_map]
  rfl

theorem goodChar_mem_preNorm {s : List Char} {c : Char}
    (hc : c ∈ preNorm s) : GoodChar c := by
  rw [preNorm_eq_map] at hc
  obtain ⟨d, _, hd⟩ := List.mem_map.mp hc
  rw [← hd]
  exact goodChar_widthFold d

theorem widthFold_of_goodChar {c : Char} (h : GoodChar c) : widthFold c = c := by
  have hf : foldChar c = c := by
    rw [foldChar, if_neg h.1]
  rw [widthFold, hf, if_neg h.2]

/-- `preNorm` is the identity on strings of good characters. -/
theorem preNorm_of_goodChars {s : List Char} (h : ∀ c ∈ s, GoodChar c) :
    preNorm s = s := by
  rw [preNorm_eq_map]
  rw [List.map_congr_left (fun c hc => widthFold_of_goodChar (h c hc))]
  exact List.map_id s

theorem mem_foldl_replace :
    ∀ (sufs : List (List Char)) (s : List Char) (c : Char),
      c ∈ sufs.foldl (fun acc suf => pyReplace suf [] acc) s → c ∈ s := by
  intro sufs
  induction sufs with
  | nil => intro s c hc; simpa using hc
  | cons suf rest ih =>
    intro s c hc
    rw [List.foldl_cons] at hc
    rcases mem_pyReplace (ih _ c hc) with h | h
    · simp at h
    · exact h

theorem foldl_replace_of_not_contains :
    ∀ (sufs : List (List Char)) (s : List Char),
      (∀ suf ∈ sufs, containsSub s suf = false) →
      sufs.foldl (fun acc suf => pyReplace suf [] acc) s = s := by
  intro sufs
  induction sufs with
  | nil => intro s _; rfl
  | cons suf rest ih =>
    intro s h
    rw [List.foldl_cons, pyReplace_of_not_contains (h suf (List.mem_cons_self _ _)),
      ih s (fun u hu => h u (List.mem_cons_of_mem _ hu))]

/-- Every `normalize_name` result is of the form `pyStrip t` for a `t`
with only good characters (the PLACE/ROUTE branches only delete from the
`preNorm` output, and the non-string branch returns `""`). -/
theorem normalize_name_shape (v : PyVal) (is_route : Bool) :
    ∃ t, normalize_name v is_route = pyStrip t ∧ ∀ c ∈ t, GoodChar c := by
  match v with
  | .pyNone | .pyInt _ | .pyFloat _ | .pyBool _ =>
    exact ⟨[], rfl, by simp⟩
  | .pyStr s =>
    match is_route with
    | true =>
      refine ⟨if pyEndsWith ['道'] (preNorm s) then pyReplace ['道'] [] (preNorm s)
        else preNorm s, rfl, ?_⟩
      intro c hc
      split at hc
      · rcases mem_pyReplace hc with h | h
        · simp at h
        · exact goodChar_mem_preNorm h
      · exact goodChar_mem_preNorm hc
    | false =>
      refine ⟨SUFFIXES.foldl (fun acc suf => pyReplace suf [] acc) (preNorm s),
        rfl, ?_⟩
      intro c hc
      exact goodChar_mem_preNorm (mem_foldl_replace _ _ c hc)

theorem normalize_name_goodChars (v : PyVal) (is_route : Bool) :
    ∀ c ∈ normalize_name v is_route, GoodChar c := by
  obtain ⟨t, ht, hgood⟩ := normalize_name_shape v is_route
  intro c hc
  rw [ht] at hc
  exact hgood c (mem_pyStrip hc)

theorem normalize_name_head (v : PyVal) (is_route : Bool) (c : Char)
    (hc : (normalize_name v is_route).head? = some c) : isPySpace c = false := by
  obtain ⟨t, ht, _⟩ := normalize_name_shape v is_route
  rw [ht] at hc
  exact pyStrip_head t c hc

theorem normalize_name_getLast (v : PyVal) (is_route : Bool) (c : Char)
    (hc : (normalize_name v is_route).getLast? = some c) : isPySpace c = false := by
  obtain ⟨t, ht, _⟩ := normalize_name_shape v is_route
  rw [ht] at hc
  exact pyStrip_getLast t c hc

theorem normalize_name_stripFixed (v : PyVal) (is_route : Bool) :
    pyStrip (normalize_name v is_route) = normalize_name v is_route := by
  obtain ⟨t, ht, _⟩ := normalize_name_shape v is_route
  rw [ht, pyStrip_idem]

/-! ### Claims about the normalizer -/

/-- Claim C10 (confirmed): for every input and both modes, the string
returned by `normalize_name` has no leading or trailing whitespace,
contains no character of the full-width ASCII block U+FF01–U+FF5E and no
ideographic space U+3000. -/
theorem C10_normalizer_output_invariant (v : PyVal) (is_route : Bool) :
    (∀ c ∈ normalize_name v is_route,
      ¬(0xFF01 ≤ c.toNat ∧ c.toNat ≤ 0xFF5E) ∧ c ≠ '　') ∧
    (∀ c, (normalize_name v is_route).head? = some c → isPySpace c = false) ∧
    (∀ c, (normalize_name v is_route).getLast? = some c → isPySpace c = false) :=
  ⟨normalize_name_goodChars v is_route,
   normalize_name_head v is_route,
   normalize_name_getLast v is_route⟩

/-- Witness for C10 at the concrete input `"　ａ道 "` (ideographic space,
full-width `ａ`, kanji, trailing space), PLACE mode: the output is
`"a道"`, its member `'a'` is good, and its head is not whitespace. -/
theorem C10_witness :
    ('a' ∈ normalize_name (.pyStr ['　', 'ａ', '道', ' ']) false ∧
      ¬(0xFF01 ≤ 'a'.toNat ∧ 'a'.toNat ≤ 0xFF5E) ∧ 'a' ≠ '　') ∧
    isPySpace 'a' = false :=
  ⟨⟨by decide,
    (C10_normalizer_output_invariant (.pyStr ['　', 'ａ', '道', ' ']) false).1
      'a' (by decide)⟩,
   (C10_normalizer_output_invariant (.pyStr ['　', 'ａ', '道', ' ']) false).2.1
      'a' (by decide)⟩

/-- Claim C9 (confirmed): `normalize_name` is total by construction, and
every non-string input (`None`, numbers, booleans) yields exactly the
empty string in either mode. -/
theorem C9_nonstring_empty (v : PyVal) (is_route : Bool)
    (h : ∀ s, v ≠ .pyStr s) : normalize_name v is_route = [] := by
  match v with
  | .pyStr s => exact absurd rfl (h s)
  | .pyNone => rfl
  | .pyInt _ => rfl
  | .pyFloat _ => rfl
  | .pyBool _ => rfl

/-- Witness for C9 at `None` (ROUTE mode) and a float (PLACE mode). -/
theorem C9_witness :
    normalize_name .pyNone true = [] ∧
    normalize_name (.pyFloat (1 / 2)) false = [] :=
  ⟨C9_nonstring_empty .pyNone true (fun _ h => PyVal.noConfusion h),
   C9_nonstring_empty (.pyFloat (1 / 2)) false (fun _ h => PyVal.noConfusion h)⟩

/-- Counterexample to claim C1: on `"道央道"`, which ends with `'道'` and
has another `'道'` at the start, ROUTE-mode normalization returns `"央"`,
not the `"道央"` that removing only the trailing occurrence would give:
`str.replace` is global, so the guard `endswith('道')` triggers removal of
every occurrence. -/
theorem C1_counterexample :
    normalize_name (.pyStr ['道', '央', '道']) true = ['央'] ∧
      normalize_name (.pyStr ['道', '央', '道']) true ≠ ['道', '央'] :=
  ⟨by decide, by decide⟩

/-- Claim C1 as amended (corrected): if the width-folded input ends with
`'道'`, ROUTE-mode normalization removes every occurrence of `'道'` (the
result is the stripped `'道'`-free filtering of the folded string), so in
particular no occurrence of `'道'` survives anywhere. -/
theorem C1_route_strips_all (s : List Char)
    (h : pyEndsWith ['道'] (preNorm s) = true) :
    normalize_name (.pyStr s) true
      = pyStrip ((preNorm s).filter (fun c => !(c = '道' : Bool))) ∧
    '道' ∉ normalize_name (.pyStr s) true := by
  have hn : normalize_name (.pyStr s) true
      = pyStrip (pyReplace ['道'] [] (preNorm s)) := by
    rw [normalize_name]
    simp only [if_true, h, if_pos]
  constructor
  · rw [hn, pyReplace_single_del]
  · intro hmem
    rw [hn, pyReplace_single_del] at hmem
    have := List.mem_filter.mp (mem_pyStrip hmem)
    simp at this

/-- Witness for the amended C1 at `"道央道"`. -/
theorem C1_witness :
    pyEndsWith ['道'] (preNorm ['道', '央', '道']) = true ∧
    (normalize_name (.pyStr ['道', '央', '道']) true
      = pyStrip ((preNorm ['道', '央', '道']).filter (fun c => !(c = '道' : Bool))) ∧
     '道' ∉ normalize_name (.pyStr ['道', '央', '道']) true) :=
  ⟨by decide, C1_route_strips_all ['道', '央', '道'] (by decide)⟩

/-- Counterexample to claim C3 (idempotence): ROUTE-mode normalization of
`"高速道 "` gives `"高速道"` (the trailing space hides the trailing `'道'`
from `endswith`, and `strip` then exposes it), and a second application
strips further to `"高速"`. -/
theorem C3_counterexample :
    normalize_name (.pyStr (normalize_name (.pyStr ['高', '速', '道', ' ']) true))
        true
      ≠ normalize_name (.pyStr ['高', '速', '道', ' ']) true := by
  decide

/-- Does a second `normalize_name` pass leave the given first-pass output
unchanged?  ROUTE mode: the output must not end with `'道'`; PLACE mode:
the output must contain no suffix-list occurrence. -/
def isNormFixed (is_route : Bool) (y : List Char) : Bool :=
  if is_route then !(pyEndsWith ['道'] y)
  else SUFFIXES.all (fun suf => !(containsSub y suf))

/-- Claim C3 as amended (corrected): normalization is idempotent exactly
on the conditional domain — whenever the first pass's output itself ends
with no `'道'` (ROUTE) resp. contains no suffix occurrence (PLACE), the
second pass returns it unchanged.  (The counterexample shows the
unconditional claim false.) -/
theorem C3_idempotent_conditional (v : PyVal) (is_route : Bool)
    (h : isNormFixed is_route (normalize_name v is_route) = true) :
    normalize_name (.pyStr (normalize_name v is_route)) is_route
      = normalize_name v is_route := by
  have hpre : preNorm (normalize_name v is_route) = normalize_name v is_route :=
    preNorm_of_goodChars (normalize_name_goodChars v is_route)
  match is_route with
  | true =>
    rw [isNormFixed, if_pos rfl, Bool.not_eq_true'] at h
    rw [normalize_name, if_pos rfl, hpre, h, if_neg (by simp)]
    exact normalize_name_stripFixed v true
  | false =>
    rw [isNormFixed, if_neg (by simp), List.all_eq_true] at h
    rw [normalize_name, if_neg (by simp), hpre,
      foldl_replace_of_not_contains SUFFIXES _
        (fun suf hsuf => by simpa using h suf hsuf)]
    exact normalize_name_stripFixed v false

/-- Witness for the amended C3 at `"東名"`, ROUTE mode. -/
theorem C3_witness :
    isNormFixed true (normalize_name (.pyStr ['東', '名']) true) = true ∧
    normalize_name (.pyStr (normalize_name (.pyStr ['東', '名']) true)) true
      = normalize_name (.pyStr ['東', '名']) true :=
  ⟨by decide, C3_idempotent_conditional (.pyStr ['東', '名']) true (by decide)⟩

/-! ### Claims about the geometric filter and the density formula -/

/-- Claim C5 (confirmed): the plausibility filter keeps a candidate iff it
is in the input list and its approximate distance (degree distance times
111000) is strictly below `DISTANCE_THRESHOLD_M = 3000`; in particular a
candidate at exactly 3000 m is excluded. -/
theorem C5_strict_threshold {R : Type} [LinearOrderedRing R] {G : Type}
    (distG : App.Point R → G → R) (geom : G) (cands : List (App.Point R))
    (p : App.Point R) :
    (p ∈ App.validCands distG geom cands ↔
      p ∈ cands ∧ distG p geom * 111000 < App.DISTANCE_THRESHOLD_M) ∧
    (distG p geom * 111000 = App.DISTANCE_THRESHOLD_M →
      p ∉ App.validCands distG geom cands) := by
  constructor
  · rw [App.validCands, List.mem_filter]
    simp
  · intro heq hmem
    rw [App.validCands, List.mem_filter] at hmem
    have := of_decide_eq_true hmem.2
    rw [heq] at this
    exact lt_irrefl _ this

/-- Witness for C5 over `ℚ`: a candidate whose degree distance is exactly
`3000 / 111000` sits exactly on the threshold and is excluded even though
it is in the candidate list. -/
theorem C5_witness :
    ((3000 / 111000 : ℚ) * 111000 = App.DISTANCE_THRESHOLD_M) ∧
    (⟨0, 0⟩ : App.Point ℚ) ∉
      App.validCands (fun _ (_ : Unit) => (3000 / 111000 : ℚ)) ()
        [(⟨0, 0⟩ : App.Point ℚ)] := by
  have h : (3000 / 111000 : ℚ) * 111000 = App.DISTANCE_THRESHOLD_M := by
    rw [App.DISTANCE_THRESHOLD_M]; norm_num
  exact ⟨h,
    (C5_strict_threshold (fun _ (_ : Unit) => (3000 / 111000 : ℚ)) ()
      [(⟨0, 0⟩ : App.Point ℚ)] ⟨0, 0⟩).2 h⟩

/-- Claim C7 (confirmed): for both density lambdas — `app.py`'s (length
always present after `dropna`) and `roadkill-map.py`'s (length possibly
missing) — the density is `count / length` when the length is known and
strictly positive, and `0` when the length is `≤ 0` or missing; both are
total functions (no division is ever attempted outside the guard, and in
the embedding division is total anyway). -/
theorem C7_density_guard {K : Type} [LinearOrderedField K]
    (count : K) (l : K) :
    (0 < l → App.perKmApp count l = count / l ∧ RM.perKmRM count (some l) = count / l) ∧
    (l ≤ 0 → App.perKmApp count l = 0 ∧ RM.perKmRM count (some l) = 0) ∧
    RM.perKmRM count none = 0 := by
  refine ⟨fun h => ⟨?_, ?_⟩, fun h => ⟨?_, ?_⟩, rfl⟩
  · rw [App.perKmApp, if_pos h]
  · rw [RM.perKmRM, if_pos h]
  · rw [App.perKmApp, if_neg (not_lt.mpr h)]
  · rw [RM.perKmRM, if_neg (not_lt.mpr h)]

/-- Witness for C7 over `ℚ`: count 5 over 2 km gives 5/2 per km; length
`-1` and missing length give 0. -/
theorem C7_witness :
    ((0 : ℚ) < 2 ∧ App.perKmApp (5 : ℚ) 2 = 5 / 2 ∧ RM.perKmRM (5 : ℚ) (some 2) = 5 / 2) ∧
    ((-1 : ℚ) ≤ 0 ∧ App.perKmApp (5 : ℚ) (-1) = 0 ∧ RM.perKmRM (5 : ℚ) (some (-1)) = 0) ∧
    RM.perKmRM (5 : ℚ) none = 0 :=
  ⟨⟨by norm_num, (C7_density_guard 5 2).1 (by norm_num)⟩,
   ⟨by norm_num, (C7_density_guard 5 (-1)).2.1 (by norm_num)⟩,
   (C7_density_guard 5 (-1)).2.2⟩

/-! ### The disambiguation loop -/

namespace App

variable {R : Type} [LinearOrderedRing R]

theorem bestPairAux_spec (hav : Point R → Point R → R) :
    ∀ (pairs : List (Point R × Point R)) (d : R) (p : Point R × Point R),
      d = hav p.1 p.2 → 0 < d →
      ∃ p', pairs.foldl (bestPairStep hav) (some d, some p)
          = (some (hav p'.1 p'.2), some p') ∧
        0 < hav p'.1 p'.2 ∧ hav p'.1 p'.2 ≤ d ∧
        (∀ q ∈ pairs, 0 < hav q.1 q.2 → hav p'.1 p'.2 ≤ hav q.1 q.2) ∧
        ((p' = p ∧ hav p'.1 p'.2 = d) ∨
          ∃ l₁ l₂, pairs = l₁ ++ p' :: l₂ ∧ hav p'.1 p'.2 < d ∧
            (∀ q ∈ l₁, 0 < hav q.1 q.2 → hav p'.1 p'.2 < hav q.1 q.2) ∧
            (∀ q ∈ l₂, 0 < hav q.1 q.2 → hav p'.1 p'.2 ≤ hav q.1 q.2)) := by
  intro pairs
  induction pairs with
  | nil =>
    intro d p hd hpos
    refine ⟨p, ?_, ?_, le_of_eq hd.symm, by simp, Or.inl ⟨rfl, hd.symm⟩⟩
    · simp [hd]
    · rw [← hd]; exact hpos
  | cons q rest ih =>
    intro d p hd hpos
    rw [List.foldl_cons]
    by_cases hq : 0 < hav q.1 q.2 ∧ hav q.1 q.2 < d
    · have hstep : bestPairStep hav (some d, some p) q
          = (some (hav q.1 q.2), some q) := by
        rw [bestPairStep]
        simp only []
        rw [if_pos hq]
      rw [hstep]
      obtain ⟨p', hfold, hpos', hle', hall, hdec⟩ :=
        ih (hav q.1 q.2) q rfl hq.1
      refine ⟨p', hfold, hpos', le_of_lt (lt_of_le_of_lt hle' hq.2), ?_, ?_⟩
      · intro q' hq' hq'pos
        rcases List.mem_cons.mp hq' with h1 | h1
        · rw [h1]; exact hle'
        · exact hall q' h1 hq'pos
      · rcases hdec with ⟨hpq, hval⟩ | ⟨l₁, l₂, hrest, hlt, hstrict, hle₂⟩
        · refine Or.inr ⟨[], rest, ?_, ?_, by simp, ?_⟩
          · rw [hpq]; rfl
          · rw [hval]; exact hq.2
          · intro q' hq' hq'pos
            exact hall q' hq' hq'pos
        · refine Or.inr ⟨q :: l₁, l₂, by rw [hrest]; rfl,
            lt_trans hlt hq.2, ?_, hle₂⟩
          intro q' hq' hq'pos
          rcases List.mem_cons.mp hq' with h1 | h1
          · rw [h1]; exact hlt
          · exact hstrict q' h1 hq'pos
    · have hstep : bestPairStep hav (some d, some p) q = (some d, some p) := by
        rw [bestPairStep]
        simp only []
        rw [if_neg hq]
      rw [hstep]
      obtain ⟨p', hfold, hpos', hle', hall, hdec⟩ := ih d p hd hpos
      refine ⟨p', hfold, hpos', hle', ?_, ?_⟩
      · intro q' hq' hq'pos
        rcases List.mem_cons.mp hq' with h1 | h1
        · rw [h1] at hq'pos ⊢
          have hdq : d ≤ hav q.1 q.2 := by
            by_contra hcon
            exact hq ⟨hq'pos, not_le.mp hcon⟩
          exact le_trans hle' hdq
        · exact hall q' h1 hq'pos
      · rcases hdec with ⟨hpq, hval⟩ | ⟨l₁, l₂, hrest, hlt, hstrict, hle₂⟩
        · exact Or.inl ⟨hpq, hval⟩
        · refine Or.inr ⟨q :: l₁, l₂, by rw [hrest]; rfl, hlt, ?_, hle₂⟩
          intro q' hq' hq'pos
          rcases List.mem_cons.mp hq' with h1 | h1
          · rw [h1] at hq'pos ⊢
            have hdq : d ≤ hav q.1 q.2 := by
              by_contra hcon
              exact hq ⟨hq'pos, not_le.mp hcon⟩
            exact lt_of_lt_of_le hlt hdq
          · exact hstrict q' h1 hq'pos

/-- Full characterization of the winning pair: it has positive distance,
it is minimal among all positive-distance pairs, and every
positive-distance pair strictly before it in iteration order has a
strictly larger distance (so on exact ties the earlier pair wins). -/
theorem bestPair_spec (hav : Point R → Point R → R) :
    ∀ (pairs : List (Point R × Point R)) (pr : Point R × Point R),
      bestPair hav pairs = some pr →
      0 < hav pr.1 pr.2 ∧
      (∀ q ∈ pairs, 0 < hav q.1 q.2 → hav pr.1 pr.2 ≤ hav q.1 q.2) ∧
      ∃ l₁ l₂, pairs = l₁ ++ pr :: l₂ ∧
        (∀ q ∈ l₁, 0 < hav q.1 q.2 → hav pr.1 pr.2 < hav q.1 q.2) := by
  intro pairs
  induction pairs with
  | nil => intro pr h; exact absurd h (by simp [bestPair])
  | cons q rest ih =>
    intro pr h
    rw [bestPair, List.foldl_cons] at h
    by_cases hq : 0 < hav q.1 q.2
    · have hstep : bestPairStep hav (none, none) q
          = (some (hav q.1 q.2), some q) := by
        rw [bestPairStep]
        simp only []
        rw [if_pos hq]
      rw [hstep] at h
      obtain ⟨p', hfold, hpos', hle', hall, hdec⟩ :=
        bestPairAux_spec hav rest (hav q.1 q.2) q rfl hq
      rw [hfold] at h
      simp only [Option.some.injEq] at h
      subst h
      refine ⟨hpos', ?_, ?_⟩
      · intro q' hq' hq'pos
        rcases List.mem_cons.mp hq' with h1 | h1
        · rw [h1]; exact hle'
        · exact hall q' h1 hq'pos
      · rcases hdec with ⟨hpq, _⟩ | ⟨l₁, l₂, hrest, hlt, hstrict, _⟩
        · exact ⟨[], rest, by rw [hpq]; rfl, by simp⟩
        · refine ⟨q :: l₁, l₂, by rw [hrest]; rfl, ?_⟩
          intro q' hq' hq'pos
          rcases List.mem_cons.mp hq' with h1 | h1
          · rw [h1]; exact hlt
          · exact hstrict q' h1 hq'pos
    · have hstep : bestPairStep hav (none, none) q = (none, none) := by
        rw [bestPairStep]
        simp only []
        rw [if_neg hq]
      rw [hstep] at h
      obtain ⟨hpos', hall, l₁, l₂, hrest, hstrict⟩ := ih pr h
      refine ⟨hpos', ?_, q :: l₁, l₂, by rw [hrest]; rfl, ?_⟩
      · intro q' hq' hq'pos
        rcases List.mem_cons.mp hq' with h1 | h1
        · rw [h1] at hq'pos; exact absurd hq'pos hq
        · exact hall q' h1 hq'pos
      · intro q' hq' hq'pos
        rcases List.mem_cons.mp hq' with h1 | h1
        · rw [h1] at hq'pos; exact absurd hq'pos hq
        · exact hstrict q' h1 hq'pos

theorem bestPair_none_of_all_nonpos (hav : Point R → Point R → R)
    (pairs : List (Point R × Point R))
    (h : ∀ q ∈ pairs, ¬0 < hav q.1 q.2) : bestPair hav pairs = none := by
  match hb : bestPair hav pairs with
  | none => rfl
  | some pr =>
    obtain ⟨hpos, _, l₁, l₂, hdec, _⟩ := bestPair_spec hav pairs pr hb
    refine absurd hpos (h pr ?_)
    rw [hdec]
    exact List.mem_append_right l₁ (List.mem_cons_self pr l₂)

end App

namespace App

variable {R : Type} [LinearOrderedRing R]

/-- A row's resolution is exactly the `best_pair` loop applied to its
surviving cross product: all earlier `continue` guards correspond to an
empty cross product, on which the loop returns no pair. -/
theorem resolveEndpoints_eq_bestPair {G : Type} (distG : Point R → G → R)
    (hav : Point R → Point R → R) (isEmptyG : G → Bool)
    (icLocations : List (List Char × List (Point R)))
    (routeGeometries : List (List Char × G))
    (officialName : Option (List Char)) (sNorm eNorm : List Char) :
    resolveEndpoints distG hav isEmptyG icLocations routeGeometries
        officialName sNorm eNorm
      = bestPair hav (survivingPairs distG isEmptyG icLocations
          routeGeometries officialName sNorm eNorm) := by
  rw [resolveEndpoints.eq_def, survivingPairs.eq_def]
  match officialName with
  | none => rfl
  | some official =>
    dsimp only
    by_cases h1 : official = []
    · rw [if_pos h1, if_pos h1]; rfl
    · rw [if_neg h1, if_neg h1]
      match lookupAssoc routeGeometries official with
      | none => rfl
      | some geom =>
        dsimp only
        by_cases h2 : isEmptyG geom = true
        · rw [if_pos h2, if_pos h2]; rfl
        · rw [if_neg h2, if_neg h2]
          by_cases h3 : (lookupAssoc icLocations sNorm).getD [] = [] ∨
              (lookupAssoc icLocations eNorm).getD [] = []
          · rw [if_pos h3, if_pos h3]; rfl
          · rw [if_neg h3, if_neg h3]
            by_cases h4 :
                validCands distG geom ((lookupAssoc icLocations sNorm).getD []) = [] ∨
                validCands distG geom ((lookupAssoc icLocations eNorm).getD []) = []
            · rw [if_pos h4, if_pos h4]; rfl
            · rw [if_neg h4, if_neg h4]

end App

/-- Claim C4 (confirmed): a candidate pair whose two points coincide
(great-circle distance zero, by reflexivity of the distance) is never the
winning pair, and if every surviving pair has distance zero the section's
resolution yields no endpoint pair at all (no map entry is produced). -/
theorem C4_zero_distance_excluded {R : Type} [LinearOrderedRing R] {G : Type}
    (distG : App.Point R → G → R) (hav : App.Point R → App.Point R → R)
    (isEmptyG : G → Bool) (icLocations : List (List Char × List (App.Point R)))
    (routeGeometries : List (List Char × G))
    (officialName : Option (List Char)) (sNorm eNorm : List Char)
    (hrefl : ∀ p, hav p p = 0) :
    (∀ pr, App.resolveEndpoints distG hav isEmptyG icLocations routeGeometries
        officialName sNorm eNorm = some pr → pr.1 ≠ pr.2) ∧
    ((∀ pr ∈ App.survivingPairs distG isEmptyG icLocations routeGeometries
        officialName sNorm eNorm, hav pr.1 pr.2 = 0) →
      App.resolveEndpoints distG hav isEmptyG icLocations routeGeometries
        officialName sNorm eNorm = none) := by
  constructor
  · intro pr hpr heq
    rw [App.resolveEndpoints_eq_bestPair] at hpr
    have hpos := (App.bestPair_spec hav _ pr hpr).1
    rw [heq, hrefl] at hpos
    exact lt_irrefl 0 hpos
  · intro hall
    rw [App.resolveEndpoints_eq_bestPair]
    refine App.bestPair_none_of_all_nonpos hav _ ?_
    intro q hq
    rw [hall q hq]
    exact lt_irrefl 0

/-- Witness for C4 over `ℤ`: one interchange name resolving to a single
point used as both start and end gives a single zero-distance surviving
pair, and resolution returns `none`. -/
theorem C4_witness :
    (∀ pr ∈ App.survivingPairs (fun _ (_ : Unit) => (0 : ℤ))
        (fun _ => false) [(['A'], [⟨0, 0⟩])] [(['R'], ())]
        (some ['R']) ['A'] ['A'],
      (fun p q : App.Point ℤ => if p = q then 0 else 1) pr.1 pr.2 = 0) ∧
    App.resolveEndpoints (fun _ (_ : Unit) => (0 : ℤ))
        (fun p q : App.Point ℤ => if p = q then 0 else 1)
        (fun _ => false) [(['A'], [⟨0, 0⟩])] [(['R'], ())]
        (some ['R']) ['A'] ['A'] = none :=
  ⟨by decide,
   (C4_zero_distance_excluded (fun _ (_ : Unit) => (0 : ℤ))
      (fun p q : App.Point ℤ => if p = q then 0 else 1)
      (fun _ => false) [(['A'], [⟨0, 0⟩])] [(['R'], ())]
      (some ['R']) ['A'] ['A'] (fun p => if_pos rfl)).2 (by decide)⟩

/-- Claim C8 (confirmed): the winning pair of the disambiguation loop is
deterministic and characterized by iteration order — it has positive
distance, its distance is minimal among all positive-distance pairs of
the cross product, and every pair that comes earlier in iteration order
either has non-positive distance or a strictly larger distance, so on an
exact tie the pair encountered first wins.  (Determinism across runs is
immediate: the loop is a pure function of its input.) -/
theorem C8_tie_break {R : Type} [LinearOrderedRing R]
    (hav : App.Point R → App.Point R → R)
    (pairs : List (App.Point R × App.Point R))
    (pr : App.Point R × App.Point R)
    (h : App.bestPair hav pairs = some pr) :
    0 < hav pr.1 pr.2 ∧
    (∀ q ∈ pairs, 0 < hav q.1 q.2 → hav pr.1 pr.2 ≤ hav q.1 q.2) ∧
    ∃ l₁ l₂, pairs = l₁ ++ pr :: l₂ ∧
      (∀ q ∈ l₁, 0 < hav q.1 q.2 → hav pr.1 pr.2 < hav q.1 q.2) :=
  App.bestPair_spec hav pairs pr h

/-- The concrete distance function of the C8 witness. -/
def c8Hav : App.Point ℤ → App.Point ℤ → ℤ := fun p q => q.x - p.x

/-- The concrete cross product of the C8 witness: two pairs whose
distances are exactly equal (both 1). -/
def c8Pairs : List (App.Point ℤ × App.Point ℤ) :=
  [(⟨0, 0⟩, ⟨1, 0⟩), (⟨5, 0⟩, ⟨6, 0⟩)]

/-- Witness for C8 over `ℤ`: on an exact tie (distances 1 and 1) the loop
picks the pair that comes first in iteration order. -/
theorem C8_witness :
    0 < c8Hav (⟨0, 0⟩ : App.Point ℤ) ⟨1, 0⟩ ∧
    (∀ q ∈ c8Pairs, 0 < c8Hav q.1 q.2 →
      c8Hav (⟨0, 0⟩ : App.Point ℤ) ⟨1, 0⟩ ≤ c8Hav q.1 q.2) ∧
    ∃ l₁ l₂, c8Pairs = l₁ ++ ((⟨0, 0⟩ : App.Point ℤ), (⟨1, 0⟩ : App.Point ℤ)) :: l₂ ∧
      (∀ q ∈ l₁, 0 < c8Hav q.1 q.2 →
        c8Hav (⟨0, 0⟩ : App.Point ℤ) ⟨1, 0⟩ < c8Hav q.1 q.2) :=
  C8_tie_break c8Hav c8Pairs (⟨0, 0⟩, ⟨1, 0⟩) (by decide)

/-! ### Claim C2: grouping and resolution keys -/

theorem lookupAssoc_append_single {α : Type} (acc : List (List Char × α))
    (k : List Char) (v : α) (raw : List Char) :
    lookupAssoc (acc ++ [(k, v)]) raw
      = match lookupAssoc acc raw with
        | some w => some w
        | none => if raw = k then some v else none := by
  cases hfind : acc.find? (fun e => decide (e.1 = raw)) with
  | some e =>
    rw [lookupAssoc, List.find?_append, hfind, lookupAssoc, hfind]
    rfl
  | none =>
    rw [lookupAssoc, List.find?_append, hfind, lookupAssoc, hfind]
    by_cases hk : k = raw
    · rw [List.find?_singleton, if_pos (by simpa using hk), if_pos hk.symm]
      rfl
    · rw [List.find?_singleton, if_neg (by simpa using hk),
        if_neg (fun hcon => hk hcon.symm)]
      rfl

theorem lookup_buildRouteNameMap_aux (shps : List (List Char)) :
    ∀ (csvs : List (List Char)) (acc : List (List Char × List Char))
      (raw : List Char),
      lookupAssoc
          (csvs.foldl
            (fun acc csv =>
              match shps.find?
                  (fun shp => containsSub shp (normalize_name (.pyStr csv) true)) with
              | some shp => acc ++ [(csv, shp)]
              | none => acc) acc) raw
        = match lookupAssoc acc raw with
          | some w => some w
          | none =>
            if raw ∈ csvs then
              shps.find?
                (fun shp => containsSub shp (normalize_name (.pyStr raw) true))
            else none := by
  intro csvs
  induction csvs with
  | nil =>
    intro acc raw
    rw [List.foldl_nil]
    cases h : lookupAssoc acc raw <;> simp [h]
  | cons c rest ih =>
    intro acc raw
    rw [List.foldl_cons]
    cases hc :
        shps.find? (fun shp => containsSub shp (normalize_name (.pyStr c) true)) with
    | some shp =>
      rw [ih (acc ++ [(c, shp)]) raw, lookupAssoc_append_single]
      cases hacc : lookupAssoc acc raw with
      | some w => rfl
      | none =>
        by_cases hrc : raw = c
        · subst hrc
          rw [if_pos rfl]
          simp [hc]
        · rw [if_neg hrc]
          by_cases hmem : raw ∈ rest
          · simp [hmem, hrc]
          · simp [hmem, hrc]
    | none =>
      rw [ih acc raw]
      cases hacc : lookupAssoc acc raw with
      | some w => rfl
      | none =>
        by_cases hrc : raw = c
        · subst hrc
          by_cases hmem : raw ∈ rest
          · simp [hmem, hc]
          · simp [hmem, hc]
        · by_cases hmem : raw ∈ rest
          · simp [hmem, hrc]
          · simp [hmem, hrc]

/-- `route_name_map` lookup: a raw CSV route name that occurs among the
distinct CSV route names maps to the first shapefile key containing its
ROUTE normalization (and to nothing if no key contains it), so the lookup
result depends on the raw name only through its normalization. -/
theorem lookup_buildRouteNameMap (csvs shps : List (List Char))
    (raw : List Char) (h : raw ∈ csvs) :
    lookupAssoc (App.buildRouteNameMap csvs shps) raw
      = shps.find? (fun shp => containsSub shp (normalize_name (.pyStr raw) true)) := by
  rw [App.buildRouteNameMap, lookup_buildRouteNameMap_aux shps csvs [] raw]
  simp [lookupAssoc, h]

theorem sectionCounts_pair_same {R : Type} [LinearOrderedRing R]
    (r : App.Incident R) :
    (App.sectionCounts [r, r]).map (fun row => row.count) = [2] := by
  have hkeys : App.rawKeys [r, r] = [(r.route, r.sectionLabel)] := by
    rw [App.rawKeys, List.foldl_cons, List.foldl_cons, List.foldl_nil]
    rw [if_neg (List.not_mem_nil _), List.nil_append,
      if_pos (List.mem_singleton.mpr rfl)]
  rw [App.sectionCounts, hkeys, List.map_cons, List.map_nil, List.map_cons,
    List.map_nil]
  simp [List.filter]

/-- Concrete environment for the C2 counterexample: one route geometry
under key `"R"`, interchanges `"A"` and `"B"` at distinct points, a
distance function putting every candidate on the route, and two incident
records whose raw section labels differ only by a trailing space (so
their normalized keys agree). -/
def c2Dist : App.Point ℤ → Unit → ℤ := fun _ _ => 0

/-- Great-circle distance of the C2 counterexample environment. -/
def c2Hav : App.Point ℤ → App.Point ℤ → ℤ := fun p q => if p = q then 0 else 1

/-- Interchange index of the C2 counterexample environment. -/
def c2IC : List (List Char × List (App.Point ℤ)) :=
  [(['A'], [⟨0, 0⟩]), (['B'], [⟨1, 0⟩])]

/-- Route-geometry index of the C2 counterexample environment. -/
def c2Geoms : List (List Char × Unit) := [(['R'], ())]

/-- First incident record: route `"R道"`, section `"A〜B"`. -/
def c2Rec1 : App.Incident ℤ := ⟨['R', '道'], ['A', '〜', 'B'], 1⟩

/-- Second incident record: same route, section `"A〜B "` (trailing
space), so the raw key differs but all normalized keys agree. -/
def c2Rec2 : App.Incident ℤ := ⟨['R', '道'], ['A', '〜', 'B', ' '], 1⟩

/-- Counterexample to claim C2: the two records have identical normalized
keys (same raw route, and the split start/end labels normalize to `"A"`
and `"B"` for both), yet the pipeline produces two resolved segments with
counts 1 and 1 instead of one segment with count 2 — the aggregation
groups by the raw `(route, section)` text, not by the normalized keys. -/
theorem C2_counterexample :
    (App.sectionCounts [c2Rec1, c2Rec2]).map
        (fun row => (row.startNorm, row.endNorm))
      = [(['A'], ['B']), (['A'], ['B'])] ∧
    normalize_name (.pyStr c2Rec1.route) true
      = normalize_name (.pyStr c2Rec2.route) true ∧
    (App.appPipeline c2Dist c2Hav (fun _ => false) c2IC c2Geoms
        [c2Rec1, c2Rec2]).map (fun m => m.count) = [1, 1] :=
  ⟨by decide, by decide, by decide⟩

/-- Claim C2 as amended (corrected): the aggregation maps records with
identical raw `(route, section)` text to one group — two identical
records give a single section row with count 2 — and the resolved
endpoints are a function of the normalized keys alone (rows whose route
names have equal ROUTE normalizations and whose start/end PLACE
normalizations agree resolve to the same endpoint pair); but the grouping
itself is keyed by raw text, so distinct raw spellings with equal
normalized keys may yield separate resolved segments (see the
counterexample). -/
theorem C2_raw_group_norm_endpoints {R : Type} [LinearOrderedRing R] {G : Type}
    (distG : App.Point R → G → R) (hav : App.Point R → App.Point R → R)
    (isEmptyG : G → Bool) (ics : List (List Char × List (App.Point R)))
    (geoms : List (List Char × G)) (csvs shps : List (List Char))
    (r : App.Incident R) (row1 row2 : App.SectionRow R)
    (h1 : row1.route ∈ csvs) (h2 : row2.route ∈ csvs)
    (hnorm : normalize_name (.pyStr row1.route) true
      = normalize_name (.pyStr row2.route) true)
    (hs : row1.startNorm = row2.startNorm) (he : row1.endNorm = row2.endNorm) :
    (App.sectionCounts [r, r]).map (fun row => row.count) = [2] ∧
    App.resolveEndpoints distG hav isEmptyG ics geoms
        (lookupAssoc (App.buildRouteNameMap csvs shps) row1.route)
        row1.startNorm row1.endNorm
      = App.resolveEndpoints distG hav isEmptyG ics geoms
        (lookupAssoc (App.buildRouteNameMap csvs shps) row2.route)
        row2.startNorm row2.endNorm := by
  refine ⟨sectionCounts_pair_same r, ?_⟩
  rw [hs, he, lookup_buildRouteNameMap csvs shps _ h1,
    lookup_buildRouteNameMap csvs shps _ h2, hnorm]

/-- Witness for the amended C2 over `ℤ`: two distinct raw route spellings
`"R道"` and `"R道道"` with equal ROUTE normalization `"R"` resolve through
the same `route_name_map` entry to equal endpoints, and a duplicated
record groups to a single row of count 2. -/
theorem C2_witness :
    (App.sectionCounts [c2Rec1, c2Rec1]).map (fun row => row.count) = [2] ∧
    App.resolveEndpoints c2Dist c2Hav (fun _ => false) c2IC c2Geoms
        (lookupAssoc
          (App.buildRouteNameMap [['R', '道'], ['R', '道', '道']] [['R']])
          ['R', '道'])
        ['A'] ['B']
      = App.resolveEndpoints c2Dist c2Hav (fun _ => false) c2IC c2Geoms
        (lookupAssoc
          (App.buildRouteNameMap [['R', '道'], ['R', '道', '道']] [['R']])
          ['R', '道', '道'])
        ['A'] ['B'] :=
  C2_raw_group_norm_endpoints c2Dist c2Hav (fun _ => false) c2IC c2Geoms
    [['R', '道'], ['R', '道', '道']] [['R']] c2Rec1
    ⟨['R', '道'], ['A', '〜', 'B'], 1, 1, ['A'], ['B']⟩
    ⟨['R', '道', '道'], ['A', '〜', 'B'], 1, 1, ['A'], ['B']⟩
    (by decide) (by decide) (by decide) rfl rfl

/-! ### Claim C6: the pre-cut merge of roadkill-map.py -/

/-- Claim C6 (confirmed): every reference segment with a geometry appears
in `map_gdf` (it is never dropped by the merge); its count is taken from
the `start〜end` key match when one exists, else from the `end〜start` key
match (the first ordering wins), and when neither ordering matches the
segment keeps count 0, missing length, and density 0. -/
theorem C6_precut_both_orderings {K : Type} [LinearOrderedField K]
    (counts : List (RM.CountsRow K)) (segs : List RM.RefSegment)
    (seg : RM.RefSegment) (hmem : seg ∈ segs)
    (hgeom : seg.geomPresent = true) :
    ∃ m ∈ RM.map_gdf counts segs, m.seg = seg ∧
      (∀ c1, RM.mergeMatch counts (RM.key1 seg) = some c1 →
        m.count = (c1.count : K)) ∧
      (RM.mergeMatch counts (RM.key1 seg) = none →
        ∀ c2, RM.mergeMatch counts (RM.key2 seg) = some c2 →
          m.count = (c2.count : K)) ∧
      (RM.mergeMatch counts (RM.key1 seg) = none →
        RM.mergeMatch counts (RM.key2 seg) = none →
          m.count = 0 ∧ m.length = none ∧ RM.perKmRM m.count m.length = 0) := by
  refine ⟨RM.mergedRow counts seg, ?_, rfl, ?_, ?_, ?_⟩
  · rw [RM.map_gdf]
    refine List.mem_filter.mpr ⟨List.mem_map_of_mem _ hmem, ?_⟩
    exact hgeom
  · intro c1 hc1
    rw [RM.mergedRow]
    simp only [hc1]
  · intro hn1 c2 hc2
    rw [RM.mergedRow]
    simp only [hn1, hc2]
  · intro hn1 hn2
    rw [RM.mergedRow]
    simp [hn1, hn2, RM.perKmRM]

/-- A reference segment for the C6 witness whose keys match nothing. -/
def c6Seg : RM.RefSegment := ⟨['甲'], ['乙'], true⟩

/-- A counts table for the C6 witness (keyed `"丙〜丁"`, matching
neither ordering of `c6Seg`). -/
def c6Counts : List (RM.CountsRow ℚ) := [⟨['丙', '〜', '丁'], 4, 2, ['R']⟩]

/-- Witness for C6 over `ℚ`: the unmatched segment stays in the output
with count 0, missing length and density 0. -/
theorem C6_witness :
    (RM.mergeMatch c6Counts (RM.key1 c6Seg) = none ∧
     RM.mergeMatch c6Counts (RM.key2 c6Seg) = none) ∧
    ∃ m ∈ RM.map_gdf c6Counts [c6Seg], m.seg = c6Seg ∧
      m.count = 0 ∧ m.length = none ∧ RM.perKmRM m.count m.length = 0 := by
  refine ⟨⟨by decide, by decide⟩, ?_⟩
  obtain ⟨m, hmem, hseg, _, _, hzero⟩ :=
    C6_precut_both_orderings c6Counts [c6Seg] c6Seg
      (List.mem_singleton.mpr rfl) rfl
  exact ⟨m, hmem, hseg, hzero (by decide) (by decide)⟩
